import Mathlib

/-!
Verification of the ingestion–normalization–join–aggregation pipeline of
`src/app.py` (a Streamlit transport dashboard).  The pandas data frames are
shallowly embedded as lists of records whose cells carry the three value
shapes relevant to the program: strings, numbers (pandas floats, modelled
exactly as rationals in lowest terms) and missing values (`NaN`/`None`,
modelled as `null`).
-/

/-- An exact rational, modelling the numeric (float) values of the
pipeline.  Values are kept in lowest terms with positive denominator;
every operation below returns such a canonical value, so equality of
canonical forms is equality of values. -/
structure Flt where
  num : Int
  den : Nat
deriving DecidableEq

/-- The canonical form of the fraction `n / d` (lowest terms). -/
def Flt.normalize (n : Int) (d : Nat) : Flt :=
  if d = 0 then ⟨0, 0⟩
  else
    let g := Nat.gcd n.natAbs d
    ⟨n / (g : Int), d / g⟩

/-- Exact addition. -/
def Flt.add (a b : Flt) : Flt :=
  Flt.normalize (a.num * (b.den : Int) + b.num * (a.den : Int)) (a.den * b.den)

/-- Exact division by a natural number (group sizes, powers of ten). -/
def Flt.divNat (a : Flt) (k : Nat) : Flt := Flt.normalize a.num (a.den * k)

/-- Exact negation. -/
def Flt.neg (a : Flt) : Flt := ⟨-a.num, a.den⟩

/-- Sum of a list of numeric values. -/
def fltSum (l : List Flt) : Flt := l.foldl Flt.add ⟨0, 1⟩

/-- A pandas cell value: a string, a numeric value, or a missing value
(`NaN`/`None`).  Numeric cells are modelled exactly as rationals. -/
inductive Cell where
  | str (s : String)
  | num (q : Flt)
  | null
deriving DecidableEq

/-- Whether a cell is a missing value (`pd.isna`). -/
def Cell.isNull : Cell → Bool
  | .null => true
  | _ => false

/-- Whether a cell holds a string (`isinstance(x, str)`). -/
def Cell.isStr : Cell → Bool
  | .str _ => true
  | _ => false

/-- Lowercase table for the ASCII letters, as used by Python `str.lower`. -/
def asciiLowerPairs : List (Char × Char) :=
  [('A','a'),('B','b'),('C','c'),('D','d'),('E','e'),('F','f'),('G','g'),
   ('H','h'),('I','i'),('J','j'),('K','k'),('L','l'),('M','m'),('N','n'),
   ('O','o'),('P','p'),('Q','q'),('R','r'),('S','s'),('T','t'),('U','u'),
   ('V','v'),('W','w'),('X','x'),('Y','y'),('Z','z')]

/-- Lowercase table for the cased letters of the model's alphabet beyond
ASCII: the accented Latin letters of the two datasets, plus sample Greek
and Cyrillic letters (Python `str.lower` on those letters).  Cased
codepoints outside this table are left unchanged — a restriction of
Python `str.lower`, which lowercases all of Unicode. -/
def extraLowerPairs : List (Char × Char) :=
  [('À','à'),('Â','â'),('Ä','ä'),('Æ','æ'),('Ç','ç'),('È','è'),('É','é'),
   ('Ê','ê'),('Ë','ë'),('Î','î'),('Ï','ï'),('Ô','ô'),('Ö','ö'),('Œ','œ'),
   ('Ù','ù'),('Û','û'),('Ü','ü'),('Ÿ','ÿ'),('Θ','θ'),('\u0410','\u0430')]

/-- Model of Python `str.lower`, character by character, over ASCII and
the cased letters of `extraLowerPairs`; any other character is left
unchanged. -/
def pyLowerChar (c : Char) : Char :=
  (((asciiLowerPairs ++ extraLowerPairs).lookup c).getD c)

/-- Transliteration table of the `unidecode` library restricted to a
representative alphabet.  The accented Latin letters of the datasets map
to their lowercase base letters, and sample codepoints of the other
classes `unidecode` handles keep their real transliterations: Greek and
Cyrillic letters, the symbols `'™'` and `'№'` whose ASCII forms contain
uppercase or parentheses, CJK syllables with a trailing space, and the
em dash.  Codepoints outside the table are dropped, `unidecode`'s
behaviour for codepoints with no transliteration. -/
def uniPairs : List (Char × List Char) :=
  [('à',['a']),('â',['a']),('ä',['a']),('æ',['a','e']),('ç',['c']),
   ('è',['e']),('é',['e']),('ê',['e']),('ë',['e']),('î',['i']),('ï',['i']),
   ('ô',['o']),('ö',['o']),('œ',['o','e']),('ù',['u']),('û',['u']),
   ('ü',['u']),('ÿ',['y']),('θ',['t','h']),('\u0430',['a']),
   ('™',['(','T','M',')']),('№',['N','o']),('—',['-','-']),
   ('北',['B','e','i',' ']),('京',['J','i','n','g',' '])]

/-- Model of `unidecode.unidecode` on one character: ASCII characters are
kept, the letters and symbols of `uniPairs` are transliterated, and any
other (unmapped) codepoint is dropped, which is `unidecode`'s behaviour
for codepoints without a transliteration. -/
def uniChar (c : Char) : List Char :=
  if c.toNat < 128 then [c] else ((uniPairs.lookup c).getD [])

/-- Python `str.strip` on the left: drop leading whitespace. -/
def stripLeft (l : List Char) : List Char := l.dropWhile Char.isWhitespace

/-- Python `str.strip`: drop leading and trailing whitespace. -/
def pyStrip (l : List Char) : List Char :=
  ((stripLeft l).reverse.dropWhile Char.isWhitespace).reverse

/-- Worker for `pySplit`: `acc` holds the (reversed) characters of the word
currently being read. -/
def pySplitAux : List Char → List Char → List (List Char)
  | [], acc => if acc = [] then [] else [acc.reverse]
  | c :: t, acc =>
    if c.isWhitespace then
      if acc = [] then pySplitAux t [] else acc.reverse :: pySplitAux t []
    else pySplitAux t (c :: acc)

/-- Python `str.split()` with no separator: split on runs of whitespace,
dropping empty pieces (so leading/trailing whitespace yields no words). -/
def pySplit (l : List Char) : List (List Char) := pySplitAux l []

/-- Python `" ".join(words)`: interleave a single space between words. -/
def joinWords : List (List Char) → List Char
  | [] => []
  | [w] => w
  | w :: v :: ws => w ++ ' ' :: joinWords (v :: ws)

/-- Keep characters that are not parentheses — the effect of
`name.replace("(", "").replace(")", "")`. -/
def notParen (c : Char) : Bool := !(c == '(' || c == ')')

/-- Replace a hyphen by a space — the effect of `name.replace("-", " ")`
on one character. -/
def hyphenToSpace (c : Char) : Char := if c = '-' then ' ' else c

/-- Stages of `clean_name` before whitespace collapsing: lowercase, strip,
transliterate accents, remove parentheses, replace hyphens by spaces. -/
def preSplit (l : List Char) : List Char :=
  (((pyStrip (l.map pyLowerChar)).flatMap uniChar).filter notParen).map
    hyphenToSpace

/-- The character-list core of `clean_name` applied to a string: the stages
of `preSplit` followed by whitespace collapsing (`" ".join(name.split())`). -/
def cleanChars (l : List Char) : List Char := joinWords (pySplit (preSplit l))

/-- `clean_name` from `src/app.py`: non-string input (including missing
values) yields the empty string; a string is normalized by `cleanChars`. -/
def clean_name : Cell → String
  | .str s => ⟨cleanChars s.data⟩
  | _ => ""

/-- No two consecutive whitespace characters occur in the list. -/
def noDoubleWS : List Char → Bool
  | a :: b :: t => !(a.isWhitespace && b.isWhitespace) && noDoubleWS (b :: t)
  | _ => true

/-- Characters that may appear inside a word of a normalized name: ASCII,
fixed by lowercasing, not a parenthesis, not a hyphen, not whitespace. -/
def wordChar (c : Char) : Prop :=
  c.toNat < 128 ∧ pyLowerChar c = c ∧ c ≠ '(' ∧ c ≠ ')' ∧ c ≠ '-' ∧
    c.isWhitespace = false

/-- A well-formed word list: every word is nonempty and made of
`wordChar`s. -/
def wordsOK (ws : List (List Char)) : Prop :=
  ∀ w ∈ ws, w ≠ [] ∧ ∀ c ∈ w, wordChar c

/-- A character whose lowercased form transliterates to lowercase-stable
text.  `clean_name` stays lowercase and idempotent on strings of tame
characters — all ASCII characters and the accented Latin letters are
tame — but not on a character such as `'™'`, whose transliteration
`"(TM)"` introduces uppercase after `lower()` has already run. -/
def tameChar (c : Char) : Prop :=
  ∀ e ∈ uniChar (pyLowerChar c), pyLowerChar e = e

instance tameChar.decPred : DecidablePred tameChar := fun c =>
  decidable_of_iff (∀ e ∈ uniChar (pyLowerChar c), pyLowerChar e = e) Iff.rfl

/-- Whether every character is an ASCII digit. -/
def allDigits (l : List Char) : Bool := l.all (fun c => decide ('0' ≤ c) && decide (c ≤ '9'))

/-- Numeric value of a nonempty ASCII digit string. -/
def digitsToNat (l : List Char) : Nat := l.foldl (fun a c => 10 * a + (c.toNat - 48)) 0

/-- Python `int(str)` after stripping: an optional sign followed by at
least one ASCII digit (other literal shapes are rejected). -/
def pyIntCore : List Char → Option Int
  | [] => none
  | '+' :: t => if t ≠ [] ∧ allDigits t then some (digitsToNat t) else none
  | '-' :: t => if t ≠ [] ∧ allDigits t then some (-(digitsToNat t : Int)) else none
  | l => if allDigits l then some (digitsToNat l) else none

/-- Python `int(str)`: surrounding whitespace is ignored. -/
def pyIntChars (l : List Char) : Option Int := pyIntCore (pyStrip l)

/-- Python `float(str)` body after sign: plain decimal literals
`digits`, `digits.digits`, `digits.` or `.digits` (the exponent/`inf`/`nan`
shapes, absent from the datasets, are not modelled). -/
def pyFloatBody (l : List Char) : Option Flt :=
  match l.splitOn '.' with
  | [ip] => if ip ≠ [] ∧ allDigits ip then some (Flt.normalize (digitsToNat ip) 1) else none
  | [ip, fp] =>
    if (ip ≠ [] ∨ fp ≠ []) ∧ allDigits ip ∧ allDigits fp then
      some (Flt.normalize (digitsToNat ip * 10 ^ fp.length + digitsToNat fp) (10 ^ fp.length))
    else none
  | _ => none

/-- Python `float(str)`: strip whitespace, optional sign, decimal body. -/
def pyFloatCore : List Char → Option Flt
  | '+' :: t => pyFloatBody t
  | '-' :: t => (pyFloatBody t).map Flt.neg
  | l => pyFloatBody l

/-- Python `float(str)` on a whole string. -/
def pyFloatChars (l : List Char) : Option Flt := pyFloatCore (pyStrip l)

/-- `pd.to_numeric(x, errors="coerce")` on one cell: numbers pass through,
missing values stay missing, strings are parsed as floats and coerced to
`NaN` (`null`) when unparseable. -/
def pyToNumeric : Cell → Cell
  | .num q => .num q
  | .null => .null
  | .str s =>
    match pyFloatChars s.data with
    | some q => .num q
    | none => .null

/-- `parse_heure` from `src/app.py` (lines 199–215): a non-string yields
`None`; otherwise take the text before the first `-` (`split("-")[0]`),
remove every occurrence of `H` (`replace("H", "")`) and parse with
`int(...)`, yielding `None` on failure. -/
def parse_heure : Cell → Option Int
  | .str s => pyIntChars (((s.data.splitOn '-').headD []).filter (fun c => c ≠ 'H'))
  | _ => none

/-- `split_geo` from `src/app.py` (lines 267–279): a string splitting on
`,` into exactly two parts yields the two stripped parts; anything else
(non-string, missing, wrong number of parts) yields `None` for both, here
modelled as `none`. -/
def split_geo : Cell → Option (List Char × List Char)
  | .str s =>
    match s.data.splitOn ',' with
    | [a, b] => some (pyStrip a, pyStrip b)
    | _ => none
  | _ => none

/-- The `lat`/`lon` cells produced for one row: `split_geo` into the
`lat_str`/`lon_str` columns (a failed split stores `None` in both), then
`pd.to_numeric(..., errors="coerce")` on each column. -/
def latlonOf (c : Cell) : Cell × Cell :=
  match split_geo c with
  | some (a, b) => (pyToNumeric (.str ⟨a⟩), pyToNumeric (.str ⟨b⟩))
  | none => (.null, .null)

/-- One row of the validations CSV after the renaming pass of
`load_validations_data` (columns `gare`, `type_jour`, `tranche_horaire`,
`pct_validations`). -/
structure RawValRow where
  gare : Cell
  type_jour : Cell
  tranche_horaire : Cell
  pct_validations : Cell
deriving DecidableEq

/-- One record of the prepared validations frame: after the dropna pass
the station key is a (cleaned) string, `pct_validations` is numeric and
`heure` is a definite integer. -/
structure ValidationRecord where
  gare : String
  type_jour : Cell
  tranche_horaire : Cell
  pct_validations : Flt
  heure : Int
deriving DecidableEq

/-- Numeric content of a cell known to be numeric (used after a
non-null filter on a `to_numeric` column). -/
def Cell.toFltD : Cell → Flt
  | .num q => q
  | _ => ⟨0, 1⟩

/-- The dropna condition of `load_validations_data`: none of station
label, day type, hour bucket, coerced percentage and parsed hour is
missing. -/
def survivesVal (r : RawValRow) : Bool :=
  !r.gare.isNull && !r.type_jour.isNull && !r.tranche_horaire.isNull &&
    !(pyToNumeric r.pct_validations).isNull && (parse_heure r.tranche_horaire).isSome

/-- The record built from a surviving raw validations row. -/
def mkValidationRecord (r : RawValRow) : ValidationRecord :=
  { gare := clean_name r.gare
    type_jour := r.type_jour
    tranche_horaire := r.tranche_horaire
    pct_validations := (pyToNumeric r.pct_validations).toFltD
    heure := (parse_heure r.tranche_horaire).getD 0 }

/-- `load_validations_data` from `src/app.py` (lines 161–241), staged as
in the code: coerce `pct_validations` with `to_numeric`, derive the
`heure` column with `parse_heure`, drop rows with a missing value in any
of the five columns, cast `heure` to int, and clean the station name. -/
def load_validations_data (rows : List RawValRow) : List ValidationRecord :=
  let rows1 := rows.map (fun r => { r with pct_validations := pyToNumeric r.pct_validations })
  let rows2 := rows1.map (fun r => (r, parse_heure r.tranche_horaire))
  let rows3 := rows2.filter (fun rh => !rh.1.gare.isNull && !rh.1.type_jour.isNull &&
    !rh.1.tranche_horaire.isNull && !rh.1.pct_validations.isNull && rh.2.isSome)
  rows3.map (fun rh =>
    { gare := clean_name rh.1.gare
      type_jour := rh.1.type_jour
      tranche_horaire := rh.1.tranche_horaire
      pct_validations := rh.1.pct_validations.toFltD
      heure := rh.2.getD 0 })

/-- One row of the stations CSV after the `nom_long` → `gare` renaming.
The geo-point and operator columns are present in the shipped dataset and
are modelled as always present; the explicit-mode column and the five
indicator columns may be absent, which the frame records as flags. -/
structure RawGareRow where
  gare : Cell
  geo_point_2d : Cell
  mode : Cell
  exploitant : Cell
  termetro : Cell
  terrer : Cell
  tertrain : Cell
  tertram : Cell
  terval : Cell
deriving DecidableEq

/-- A stations data frame: which optional columns exist, and the rows. -/
structure GaresFrame where
  hasMode : Bool
  hasTermetro : Bool
  hasTerrer : Bool
  hasTertrain : Bool
  hasTertram : Bool
  hasTerval : Bool
  rows : List RawGareRow
deriving DecidableEq

/-- The fill pass `if col not in df.columns: df[col] = 0`: a missing
indicator column is replaced by the constant `0`. -/
def effCell (present : Bool) (c : Cell) : Cell := if present then c else .num ⟨0, 1⟩

/-- The comparison `row.get(col, 0) == 1` of `infer_mode`: only numeric
`1` compares equal to the integer `1` (Python equality). -/
def cellEqOne (c : Cell) : Bool := c == .num ⟨1, 1⟩

/-- `infer_mode` from `src/app.py` (lines 309–331): first indicator equal
to `1` wins in the order métro, RER, train, tram, VAL; otherwise
`"Autre"`. -/
def infer_mode (tm tr tt ttr tv : Cell) : String :=
  if cellEqOne tm then "Métro"
  else if cellEqOne tr then "RER"
  else if cellEqOne tt then "Train"
  else if cellEqOne ttr then "Tram"
  else if cellEqOne tv then "VAL"
  else "Autre"

/-- A stations row after geo splitting, indicator filling and mode
resolution, before the dropna and name-cleaning passes. -/
structure PreStation where
  gare : Cell
  lat : Cell
  lon : Cell
  mode : Cell
  exploitant : Cell
  termetro : Cell
  terrer : Cell
  tertrain : Cell
  tertram : Cell
  terval : Cell
deriving DecidableEq

/-- Per-row work of `load_gares_data` before dropping rows: split the
geo-point, fill absent indicator columns with `0`, and keep the explicit
`mode` column when it exists or infer it otherwise. -/
def preStationOf (f : GaresFrame) (r : RawGareRow) : PreStation :=
  { gare := r.gare
    lat := (latlonOf r.geo_point_2d).1
    lon := (latlonOf r.geo_point_2d).2
    mode :=
      if f.hasMode then r.mode
      else .str (infer_mode (effCell f.hasTermetro r.termetro)
        (effCell f.hasTerrer r.terrer) (effCell f.hasTertrain r.tertrain)
        (effCell f.hasTertram r.tertram) (effCell f.hasTerval r.terval))
    exploitant := r.exploitant
    termetro := effCell f.hasTermetro r.termetro
    terrer := effCell f.hasTerrer r.terrer
    tertrain := effCell f.hasTertrain r.tertrain
    tertram := effCell f.hasTertram r.tertram
    terval := effCell f.hasTerval r.terval }

/-- One record of the prepared stations frame. -/
structure StationRecord where
  gare : String
  lat : Cell
  lon : Cell
  mode : Cell
  exploitant : Cell
  termetro : Cell
  terrer : Cell
  tertrain : Cell
  tertram : Cell
  terval : Cell
deriving DecidableEq

/-- The final name-cleaning pass of `load_gares_data`. -/
def finishStation (p : PreStation) : StationRecord :=
  { gare := clean_name p.gare
    lat := p.lat
    lon := p.lon
    mode := p.mode
    exploitant := p.exploitant
    termetro := p.termetro
    terrer := p.terrer
    tertrain := p.tertrain
    tertram := p.tertram
    terval := p.terval }

/-- `load_gares_data` from `src/app.py` (lines 247–381): per-row
preparation, `dropna(subset=["gare"])`, then `clean_name` on the station
name. -/
def load_gares_data (f : GaresFrame) : List StationRecord :=
  ((f.rows.map (preStationOf f)).filter (fun p => !p.gare.isNull)).map finishStation

/-- One row of the merged frame: the validations record together with the
matched stations record, or `none` when no station matched (pandas then
fills the station columns with `NaN`). -/
structure JoinedRecord where
  val : ValidationRecord
  station : Option StationRecord
deriving DecidableEq

/-- Station-side `lat` column of a merged row (`NaN` when unmatched). -/
def JoinedRecord.lat (j : JoinedRecord) : Cell :=
  match j.station with
  | some g => g.lat
  | none => .null

/-- Station-side `lon` column of a merged row. -/
def JoinedRecord.lon (j : JoinedRecord) : Cell :=
  match j.station with
  | some g => g.lon
  | none => .null

/-- Station-side `mode` column of a merged row. -/
def JoinedRecord.mode (j : JoinedRecord) : Cell :=
  match j.station with
  | some g => g.mode
  | none => .null

/-- Station-side `exploitant` column of a merged row. -/
def JoinedRecord.exploitant (j : JoinedRecord) : Cell :=
  match j.station with
  | some g => g.exploitant
  | none => .null

/-- `merge_validations_gares` from `src/app.py` (lines 389–395):
`df_val.merge(df_gares, on="gare", how="left")` — every left row in
order, paired with each matching right row in order, or with `NaN`
station columns when nothing matches. -/
def merge_validations_gares (dfv : List ValidationRecord) (dfg : List StationRecord) :
    List JoinedRecord :=
  dfv.flatMap (fun v =>
    match dfg.filter (fun g => g.gare == v.gare) with
    | [] => [{ val := v, station := none }]
    | ms => ms.map (fun g => { val := v, station := some g }))

/-- Insertion of an element into a sorted list. -/
def insertLe {α : Type} (le : α → α → Bool) (a : α) : List α → List α
  | [] => [a]
  | b :: t => if le a b then a :: b :: t else b :: insertLe le a t

/-- Insertion sort, modelling `df.sort_values` (the properties verified
here depend only on the multiset of rows, not on pandas' tie order). -/
def sortLe {α : Type} (le : α → α → Bool) (l : List α) : List α := l.foldr (insertLe le) []

/-- Lexicographic comparison on (station, hour) used by the hourly
profile view. -/
def valLe (a b : ValidationRecord) : Bool :=
  decide (a.gare < b.gare) || (a.gare == b.gare && decide (a.heure ≤ b.heure))

/-- Aggregation feeding the hourly-profile plot (`plot_profil_horaire`,
lines 401–445): `df.sort_values(["gare", "heure"])`, whose (hour, pct)
pairs the line chart then groups by station. -/
def profil_horaire_data (rows : List ValidationRecord) : List ValidationRecord :=
  sortLe valLe rows

/-- Aggregation feeding the boxplot (`plot_boxplot`, lines 451–501):
`df.dropna(subset=["mode"])` — the full per-mode point set, with rows
lacking a resolved mode excluded. -/
def boxplot_data (rows : List JoinedRecord) : List JoinedRecord :=
  rows.filter (fun j => !j.mode.isNull)

/-- Pandas `groupby(keys)[col].sum()` over a list: one entry per distinct
key, paired with the sum of the column over the rows carrying that key. -/
def groupSum {α κ : Type} [DecidableEq κ] (key : α → κ) (val : α → Flt) (l : List α) :
    List (κ × Flt) :=
  ((l.map key).dedup).map (fun k =>
    (k, fltSum ((l.filter (fun a => decide (key a = k))).map val)))

/-- Pandas `groupby(keys)[col].mean()` over a list. -/
def groupMean {α κ : Type} [DecidableEq κ] (key : α → κ) (val : α → Flt) (l : List α) :
    List (κ × Flt) :=
  ((l.map key).dedup).map (fun k =>
    (k, (fltSum ((l.filter (fun a => decide (key a = k))).map val)).divNat
      (l.filter (fun a => decide (key a = k))).length))

/-- Aggregation feeding the heatmap (`plot_heatmap`, lines 507–545):
`groupby(["type_jour", "heure"])["pct_validations"].mean()`.  The filter
models pandas `groupby` discarding rows with a missing group key (the
`heure` column, an integer, is never missing). -/
def heatmap_data (rows : List ValidationRecord) : List ((Cell × Int) × Flt) :=
  groupMean (fun v => (v.type_jour, v.heure)) (fun v => v.pct_validations)
    (rows.filter (fun v => !v.type_jour.isNull))

/-- The five-part grouping key of the geospatial summary. -/
def mapKeyOf (j : JoinedRecord) : String × Cell × Cell × Cell × Cell :=
  (j.val.gare, j.lat, j.lon, j.mode, j.exploitant)

/-- Aggregation feeding the map (`show_map`, lines 551–575):
`df_merged.dropna(subset=["lat", "lon"])`, then
`groupby(["gare", "lat", "lon", "mode", "exploitant"],
as_index=False)["pct_validations"].sum()`.  The second filter is pandas
`groupby`'s default `dropna=True`, which also discards rows whose `mode`
or `exploitant` key is missing (`gare`, coming from the validations side,
is always a string); the group order differs from pandas (which sorts
keys) but the set of groups and their sums is the same.  `mapRowsKept`
is the row set that survives both exclusions. -/
def mapRowsKept (rows : List JoinedRecord) : List JoinedRecord :=
  (rows.filter (fun j => !j.lat.isNull && !j.lon.isNull)).filter
    (fun j => !j.mode.isNull && !j.exploitant.isNull)

def show_map_data (rows : List JoinedRecord) :
    List ((String × Cell × Cell × Cell × Cell) × Flt) :=
  groupSum mapKeyOf (fun j => j.val.pct_validations) (mapRowsKept rows)

/-- Modelled from the spec (the wording of claim C7): the geospatial
summary as "group the joined records by (station_key, lat, lon, mode,
operator) and sum pct_validations, after excluding every row whose lat or
lon is null" — with no further exclusion. -/
def specMapSummary (rows : List JoinedRecord) :
    List ((String × Cell × Cell × Cell × Cell) × Flt) :=
  groupSum mapKeyOf (fun j => j.val.pct_validations)
    (rows.filter (fun j => !j.lat.isNull && !j.lon.isNull))

/-- Modelled from the spec (the wording of claim C4): the derived hour is
the integer parse of the text before the separator with the trailing unit
suffix `H` stripped. -/
def specDerivedHour : Cell → Option Int
  | .str s =>
    pyIntChars
      (if ((s.data.splitOn '-').headD []).getLast? = some 'H' then
        ((s.data.splitOn '-').headD []).dropLast
      else (s.data.splitOn '-').headD [])
  | _ => none

/-- Sample validation record used by concrete witnesses. -/
def vRec (g : String) (tj : String) (p : Flt) : ValidationRecord :=
  { gare := g, type_jour := .str tj, tranche_horaire := .str "6H-7H",
    pct_validations := p, heure := 6 }

/-- Sample station record used by concrete witnesses. -/
def gRec (g : String) (la lo mo op : Cell) : StationRecord :=
  { gare := g, lat := la, lon := lo, mode := mo, exploitant := op,
    termetro := .num ⟨1, 1⟩, terrer := .num ⟨0, 1⟩, tertrain := .num ⟨0, 1⟩,
    tertram := .num ⟨0, 1⟩, terval := .num ⟨0, 1⟩ }

/-- Modelled from the spec (claim C3 wording): the ordered priority list
of (mode, effective indicator) pairs for one stations row. -/
def specModePriority (f : GaresFrame) (r : RawGareRow) : List (String × Cell) :=
  [("Métro", effCell f.hasTermetro r.termetro),
   ("RER", effCell f.hasTerrer r.terrer),
   ("Train", effCell f.hasTertrain r.tertrain),
   ("Tram", effCell f.hasTertram r.tertram),
   ("VAL", effCell f.hasTerval r.terval)]

/-- Modelled from the spec (claim C3 wording): the first mode of the
priority order whose indicator is true, `"Autre"` when none is. -/
def specModeOf (f : GaresFrame) (r : RawGareRow) : String :=
  (((specModePriority f r).find? (fun p => cellEqOne p.2)).map Prod.fst).getD "Autre"

/-- Sample raw stations row used by concrete witnesses: name and
geo-point as given, no explicit mode, operator `"X"`, `termetro` as
given, the other indicators 0. -/
def rawRow (g geo : Cell) (tm : Flt) : RawGareRow :=
  { gare := g, geo_point_2d := geo, mode := .null, exploitant := .str "X",
    termetro := .num tm, terrer := .num ⟨0, 1⟩, tertrain := .num ⟨0, 1⟩,
    tertram := .num ⟨0, 1⟩, terval := .num ⟨0, 1⟩ }

/-- Sample stations frame used by concrete witnesses: no explicit mode
column, all five indicator columns present or absent together. -/
def frameOf (p : Bool) (rows : List RawGareRow) : GaresFrame :=
  { hasMode := false, hasTermetro := p, hasTerrer := p, hasTertrain := p,
    hasTertram := p, hasTerval := p, rows := rows }

/-- Sample raw validations row used by concrete inputs. -/
def rawVal (g tj tr pc : Cell) : RawValRow :=
  { gare := g, type_jour := tj, tranche_horaire := tr, pct_validations := pc }

/-- A merged row built from its two sides. -/
def jRow (v : ValidationRecord) (st : Option StationRecord) : JoinedRecord :=
  { val := v, station := st }

theorem lookup_val_mem {β : Type} (ps : List (Char × β)) (c : Char) (v : β)
    (h : ps.lookup c = some v) : v ∈ ps.map Prod.snd := by
  induction ps with
  | nil => simp [List.lookup] at h
  | cons p t ih =>
    rw [List.lookup] at h
    by_cases hc : c == p.1
    · simp only [hc, if_pos] at h
      cases h
      simp
    · simp only [hc] at h
      simp only [List.map_cons, List.mem_cons]
      exact Or.inr (ih h)

theorem pyLowerChar_idem (c : Char) : pyLowerChar (pyLowerChar c) = pyLowerChar c := by
  unfold pyLowerChar
  cases h : (asciiLowerPairs ++ extraLowerPairs).lookup c with
  | none => simp [h]
  | some v =>
    have hv : v ∈ (asciiLowerPairs ++ extraLowerPairs).map Prod.snd :=
      lookup_val_mem _ _ _ h
    have hfix : ∀ v ∈ (asciiLowerPairs ++ extraLowerPairs).map Prod.snd,
        (asciiLowerPairs ++ extraLowerPairs).lookup v = none := by decide
    simp [h, hfix v hv]

theorem uniChar_ascii (c : Char) : ∀ e ∈ uniChar c, e.toNat < 128 := by
  intro e he
  unfold uniChar at he
  by_cases h : c.toNat < 128
  · simp only [h, if_pos, List.mem_singleton] at he
    subst he
    exact h
  · simp only [h, if_neg, Bool.false_eq_true, not_false_iff] at he
    cases hl : uniPairs.lookup c with
    | none => simp [hl] at he
    | some ls =>
      have hmem : ls ∈ uniPairs.map Prod.snd := lookup_val_mem _ _ _ hl
      have hall : ∀ ls ∈ uniPairs.map Prod.snd, ∀ e ∈ ls, e.toNat < 128 := by decide
      rw [hl] at he
      exact hall ls hmem e he

theorem mem_stripLeft {c : Char} {l : List Char} (h : c ∈ stripLeft l) : c ∈ l := by
  unfold stripLeft at h
  exact (List.dropWhile_sublist _).subset h

theorem mem_pyStrip {c : Char} {l : List Char} (h : c ∈ pyStrip l) : c ∈ l := by
  unfold pyStrip at h
  rw [List.mem_reverse] at h
  have := (List.dropWhile_sublist (l := (stripLeft l).reverse)
    (p := Char.isWhitespace)).subset h
  rw [List.mem_reverse] at this
  exact mem_stripLeft this

theorem preSplit_chars_ascii (l : List Char) :
    ∀ c ∈ preSplit l, c.toNat < 128 ∧ c ≠ '(' ∧ c ≠ ')' ∧ c ≠ '-' := by
  intro c hc
  unfold preSplit at hc
  rw [List.mem_map] at hc
  obtain ⟨e, he, hce⟩ := hc
  rw [List.mem_filter] at he
  obtain ⟨he, hpar⟩ := he
  rw [List.mem_flatMap] at he
  obtain ⟨a, _, hea⟩ := he
  have hASCII := uniChar_ascii a e hea
  by_cases hd : e = '-'
  · subst hd
    rw [← hce]
    refine ⟨by decide, by decide, by decide, by decide⟩
  · have hee : hyphenToSpace e = e := by simp [hyphenToSpace, hd]
    rw [← hce, hee]
    unfold notParen at hpar
    simp only [Bool.not_eq_true', Bool.or_eq_false_iff, beq_eq_false_iff_ne] at hpar
    exact ⟨hASCII, hpar.1, hpar.2, hd⟩

theorem preSplit_chars_tame (l : List Char) (hl : ∀ c ∈ l, tameChar c) :
    ∀ c ∈ preSplit l, pyLowerChar c = c := by
  intro c hc
  unfold preSplit at hc
  rw [List.mem_map] at hc
  obtain ⟨e, he, hce⟩ := hc
  rw [List.mem_filter] at he
  obtain ⟨he, _⟩ := he
  rw [List.mem_flatMap] at he
  obtain ⟨a, ha, hea⟩ := he
  have hmem := mem_pyStrip ha
  rw [List.mem_map] at hmem
  obtain ⟨b, hb, hba⟩ := hmem
  rw [← hba] at hea
  have ht := hl b hb
  unfold tameChar at ht
  have hfix : pyLowerChar e = e := ht e hea
  by_cases hd : e = '-'
  · subst hd
    rw [← hce]
    decide
  · have hee : hyphenToSpace e = e := by simp [hyphenToSpace, hd]
    rw [← hce, hee]
    exact hfix

theorem pySplitAux_words {Q : Char → Prop} :
    ∀ (l acc : List Char), (∀ c ∈ l, Q c) → (∀ c ∈ acc, Q c ∧ c.isWhitespace = false) →
    ∀ w ∈ pySplitAux l acc, w ≠ [] ∧ ∀ c ∈ w, Q c ∧ c.isWhitespace = false := by
  intro l
  induction l with
  | nil =>
    intro acc _ hacc w hw
    unfold pySplitAux at hw
    by_cases ha : acc = []
    · simp [ha] at hw
    · rw [if_neg ha, List.mem_singleton] at hw
      subst hw
      refine ⟨by simpa using ha, ?_⟩
      intro c hc
      exact hacc c (List.mem_reverse.mp hc)
  | cons a t ih =>
    intro acc hl hacc w hw
    unfold pySplitAux at hw
    by_cases hws : a.isWhitespace
    · rw [if_pos hws] at hw
      by_cases ha : acc = []
      · rw [if_pos ha] at hw
        exact ih [] (fun c hc => hl c (List.mem_cons_of_mem a hc)) (by simp) w hw
      · rw [if_neg ha] at hw
        rcases List.mem_cons.mp hw with h | h
        · subst h
          refine ⟨by simpa using ha, ?_⟩
          intro c hc
          exact hacc c (List.mem_reverse.mp hc)
        · exact ih [] (fun c hc => hl c (List.mem_cons_of_mem a hc)) (by simp) w h
    · rw [if_neg hws] at hw
      refine ih (a :: acc) (fun c hc => hl c (List.mem_cons_of_mem a hc)) ?_ w hw
      intro c hc
      rcases List.mem_cons.mp hc with h | h
      · subst h
        exact ⟨hl c (List.mem_cons_self _ _), by simpa using hws⟩
      · exact hacc c h

theorem pySplitAux_append_word :
    ∀ (w r acc : List Char), (∀ c ∈ w, c.isWhitespace = false) →
    pySplitAux (w ++ r) acc = pySplitAux r (w.reverse ++ acc) := by
  intro w
  induction w with
  | nil => intro r acc _; simp
  | cons a t ih =>
    intro r acc hw
    have ha : a.isWhitespace = false := hw a (List.mem_cons_self _ _)
    rw [List.cons_append]
    have h1 : pySplitAux (a :: (t ++ r)) acc = pySplitAux (t ++ r) (a :: acc) := by
      conv_lhs => unfold pySplitAux
      rw [if_neg (by simp [ha])]
    rw [h1, ih r (a :: acc) (fun c hc => hw c (List.mem_cons_of_mem a hc))]
    simp

theorem pySplit_joinWords :
    ∀ ws : List (List Char), (∀ w ∈ ws, w ≠ [] ∧ ∀ c ∈ w, c.isWhitespace = false) →
    pySplit (joinWords ws) = ws := by
  intro ws
  induction ws with
  | nil => intro _; rfl
  | cons w t ih =>
    intro h
    have hw := h w (List.mem_cons_self _ _)
    cases t with
    | nil =>
      show pySplit (joinWords [w]) = [w]
      unfold joinWords pySplit
      rw [← List.append_nil w, pySplitAux_append_word w [] [] hw.2]
      unfold pySplitAux
      have : w.reverse ++ [] ≠ [] := by simp [hw.1]
      simp [this, hw.1]
    | cons v t' =>
      show pySplit (joinWords (w :: v :: t')) = w :: v :: t'
      unfold joinWords pySplit
      rw [pySplitAux_append_word w _ [] hw.2]
      unfold pySplitAux
      have hrev : w.reverse ++ [] ≠ [] := by simp [hw.1]
      rw [if_pos (by decide), if_neg hrev]
      have := ih (fun u hu => h u (List.mem_cons_of_mem w hu))
      unfold pySplit at this
      rw [this]
      simp

theorem joinWords_ne_nil (v : List Char) (ws : List (List Char)) (hv : v ≠ []) :
    joinWords (v :: ws) ≠ [] := by
  cases ws with
  | nil => exact hv
  | cons u t => show v ++ ' ' :: joinWords (u :: t) ≠ []; simp

theorem joinWords_chars :
    ∀ ws : List (List Char), ∀ c ∈ joinWords ws, (∃ w ∈ ws, c ∈ w) ∨ c = ' ' := by
  intro ws
  induction ws with
  | nil => intro c hc; simp [joinWords] at hc
  | cons w t ih =>
    intro c hc
    cases t with
    | nil =>
      refine Or.inl ⟨w, List.mem_cons_self _ _, ?_⟩
      simpa [joinWords] using hc
    | cons v t' =>
      rw [show joinWords (w :: v :: t') = w ++ ' ' :: joinWords (v :: t') from rfl,
        List.mem_append] at hc
      rcases hc with h | h
      · exact Or.inl ⟨w, List.mem_cons_self _ _, h⟩
      · rcases List.mem_cons.mp h with h' | h'
        · exact Or.inr h'
        · rcases ih c h' with ⟨u, hu, hcu⟩ | h''
          · exact Or.inl ⟨u, List.mem_cons_of_mem _ hu, hcu⟩
          · exact Or.inr h''

theorem head?_mem_self {c : Char} {l : List Char} (h : l.head? = some c) : c ∈ l := by
  cases l with
  | nil => cases h
  | cons a t =>
    cases h
    exact List.mem_cons_self _ _

theorem getLast?_mem_self {c : Char} : ∀ {l : List Char}, l.getLast? = some c → c ∈ l := by
  intro l
  induction l with
  | nil => intro h; cases h
  | cons a t ih =>
    intro h
    cases t with
    | nil =>
      cases h
      exact List.mem_cons_self _ _
    | cons b t' =>
      rw [List.getLast?_cons_cons] at h
      exact List.mem_cons_of_mem _ (ih h)

theorem getLast?_some_of_ne_nil : ∀ (l : List Char), l ≠ [] → ∃ c, l.getLast? = some c := by
  intro l
  induction l with
  | nil => intro h; exact absurd rfl h
  | cons a t ih =>
    intro _
    cases t with
    | nil => exact ⟨a, rfl⟩
    | cons b t' =>
      obtain ⟨c, hc⟩ := ih (by simp)
      exact ⟨c, by rw [List.getLast?_cons_cons]; exact hc⟩

theorem getLast?_append_some {c : Char} (l : List Char) :
    ∀ {m : List Char}, m.getLast? = some c → (l ++ m).getLast? = some c := by
  induction l with
  | nil => intro m h; simpa using h
  | cons a t ih =>
    intro m h
    rw [List.cons_append]
    have ht : (t ++ m).getLast? = some c := ih h
    cases hx : t ++ m with
    | nil => rw [hx] at ht; cases ht
    | cons b t' =>
      rw [hx] at ht
      rw [List.getLast?_cons_cons]
      exact ht

theorem joinWords_head_not_ws (ws : List (List Char))
    (h : ∀ w ∈ ws, w ≠ [] ∧ ∀ c ∈ w, c.isWhitespace = false) :
    ∀ c, (joinWords ws).head? = some c → c.isWhitespace = false := by
  intro c hc
  cases ws with
  | nil => cases hc
  | cons w t =>
    have hw := h w (List.mem_cons_self _ _)
    obtain ⟨a, w', hww⟩ := List.exists_cons_of_ne_nil hw.1
    have hcw : c ∈ w := by
      cases t with
      | nil => exact head?_mem_self hc
      | cons v t' =>
        rw [show joinWords (w :: v :: t') = w ++ ' ' :: joinWords (v :: t') from rfl,
          hww] at hc
        rw [List.cons_append] at hc
        cases hc
        rw [hww]
        exact List.mem_cons_self _ _
    exact hw.2 c hcw

theorem joinWords_last_not_ws (ws : List (List Char))
    (h : ∀ w ∈ ws, w ≠ [] ∧ ∀ c ∈ w, c.isWhitespace = false) :
    ∀ c, (joinWords ws).getLast? = some c → c.isWhitespace = false := by
  induction ws with
  | nil => intro c hc; cases hc
  | cons w t ih =>
    intro c hc
    have hw := h w (List.mem_cons_self _ _)
    cases t with
    | nil => exact hw.2 c (getLast?_mem_self hc)
    | cons v t' =>
      have hne : joinWords (v :: t') ≠ [] :=
        joinWords_ne_nil v t' (h v (List.mem_cons_of_mem _ (List.mem_cons_self _ _))).1
      obtain ⟨y, hy⟩ := getLast?_some_of_ne_nil _ hne
      have h2 : (' ' :: joinWords (v :: t')).getLast? = some y :=
        getLast?_append_some [' '] hy
      have h1 : (joinWords (w :: v :: t')).getLast? = some y := by
        rw [show joinWords (w :: v :: t') = w ++ ' ' :: joinWords (v :: t') from rfl]
        exact getLast?_append_some w h2
      rw [h1] at hc
      cases hc
      exact ih (fun u hu => h u (List.mem_cons_of_mem _ hu)) _ hy

theorem noDoubleWS_append (w m : List Char) (hw : ∀ c ∈ w, c.isWhitespace = false)
    (hm : noDoubleWS m = true) : noDoubleWS (w ++ m) = true := by
  induction w with
  | nil => simpa using hm
  | cons a w' ih =>
    have ha : a.isWhitespace = false := hw a (List.mem_cons_self _ _)
    have ih' : noDoubleWS (w' ++ m) = true :=
      ih (fun c hc => hw c (List.mem_cons_of_mem _ hc))
    rw [List.cons_append]
    cases hx : w' ++ m with
    | nil => rfl
    | cons b t =>
      rw [hx] at ih'
      show (!(a.isWhitespace && b.isWhitespace) && noDoubleWS (b :: t)) = true
      rw [ha, ih']
      rfl

theorem joinWords_noDoubleWS (ws : List (List Char))
    (h : ∀ w ∈ ws, w ≠ [] ∧ ∀ c ∈ w, c.isWhitespace = false) :
    noDoubleWS (joinWords ws) = true := by
  induction ws with
  | nil => rfl
  | cons w t ih =>
    have hw := h w (List.mem_cons_self _ _)
    cases t with
    | nil =>
      show noDoubleWS (joinWords [w]) = true
      have : joinWords [w] = w ++ [] := by simp [joinWords]
      rw [this]
      exact noDoubleWS_append w [] hw.2 rfl
    | cons v t' =>
      have hrest := ih (fun u hu => h u (List.mem_cons_of_mem _ hu))
      have hvne : joinWords (v :: t') ≠ [] :=
        joinWords_ne_nil v t' (h v (List.mem_cons_of_mem _ (List.mem_cons_self _ _))).1
      rw [show joinWords (w :: v :: t') = w ++ ' ' :: joinWords (v :: t') from rfl]
      refine noDoubleWS_append w _ hw.2 ?_
      cases hx : joinWords (v :: t') with
      | nil => exact absurd hx hvne
      | cons b tb =>
        have hb : b.isWhitespace = false := by
          refine joinWords_head_not_ws (v :: t')
            (fun u hu => h u (List.mem_cons_of_mem _ hu)) b ?_
          rw [hx]; rfl
        rw [hx] at hrest
        show (!((' ' : Char).isWhitespace && b.isWhitespace) && noDoubleWS (b :: tb)) = true
        rw [hb, hrest]
        rfl

theorem map_fixed {f : Char → Char} :
    ∀ l : List Char, (∀ c ∈ l, f c = c) → l.map f = l := by
  intro l
  induction l with
  | nil => intro _; rfl
  | cons a t ih =>
    intro h
    rw [List.map_cons, h a (List.mem_cons_self _ _),
      ih (fun c hc => h c (List.mem_cons_of_mem _ hc))]

theorem flatMap_fixed {f : Char → List Char} :
    ∀ l : List Char, (∀ c ∈ l, f c = [c]) → l.flatMap f = l := by
  intro l
  induction l with
  | nil => intro _; rfl
  | cons a t ih =>
    intro h
    rw [List.flatMap_cons, h a (List.mem_cons_self _ _),
      ih (fun c hc => h c (List.mem_cons_of_mem _ hc))]
    rfl

theorem filter_fixed {p : Char → Bool} :
    ∀ l : List Char, (∀ c ∈ l, p c = true) → l.filter p = l := by
  intro l
  induction l with
  | nil => intro _; rfl
  | cons a t ih =>
    intro h
    rw [List.filter_cons, if_pos (h a (List.mem_cons_self _ _)),
      ih (fun c hc => h c (List.mem_cons_of_mem _ hc))]

theorem dropWhile_head_not :
    ∀ l : List Char, (∀ c, l.head? = some c → c.isWhitespace = false) →
    l.dropWhile Char.isWhitespace = l := by
  intro l h
  cases l with
  | nil => rfl
  | cons a t =>
    rw [List.dropWhile_cons, if_neg]
    simp [h a rfl]

theorem pyStrip_fixed (l : List Char)
    (hh : ∀ c, l.head? = some c → c.isWhitespace = false)
    (hl : ∀ c, l.getLast? = some c → c.isWhitespace = false) :
    pyStrip l = l := by
  unfold pyStrip stripLeft
  rw [dropWhile_head_not l hh]
  rw [dropWhile_head_not l.reverse (fun c hc => hl c (by rwa [List.head?_reverse] at hc))]
  exact List.reverse_reverse l

theorem cleanChars_words_tame (l : List Char) (hl : ∀ c ∈ l, tameChar c) :
    wordsOK (pySplit (preSplit l)) := by
  intro w hw
  have hs := pySplitAux_words (Q := fun c =>
      c.toNat < 128 ∧ pyLowerChar c = c ∧ c ≠ '(' ∧ c ≠ ')' ∧ c ≠ '-')
    (preSplit l) [] (fun c hc =>
      ⟨(preSplit_chars_ascii l c hc).1, preSplit_chars_tame l hl c hc,
       (preSplit_chars_ascii l c hc).2.1, (preSplit_chars_ascii l c hc).2.2.1,
       (preSplit_chars_ascii l c hc).2.2.2⟩) (by simp) w hw
  refine ⟨hs.1, ?_⟩
  intro c hc
  obtain ⟨⟨h1, h2, h3, h4, h5⟩, h6⟩ := hs.2 c hc
  exact ⟨h1, h2, h3, h4, h5, h6⟩

theorem cleanChars_words_ascii (l : List Char) :
    ∀ w ∈ pySplit (preSplit l), w ≠ [] ∧ ∀ c ∈ w,
      (c.toNat < 128 ∧ c ≠ '(' ∧ c ≠ ')' ∧ c ≠ '-') ∧ c.isWhitespace = false :=
  fun w hw => pySplitAux_words (Q := fun c =>
      c.toNat < 128 ∧ c ≠ '(' ∧ c ≠ ')' ∧ c ≠ '-')
    (preSplit l) [] (preSplit_chars_ascii l) (by simp) w hw

theorem wordsOK_no_ws {ws : List (List Char)} (h : wordsOK ws) :
    ∀ w ∈ ws, w ≠ [] ∧ ∀ c ∈ w, c.isWhitespace = false := by
  intro w hw
  exact ⟨(h w hw).1, fun c hc => ((h w hw).2 c hc).2.2.2.2.2⟩

theorem joinWords_char_good {ws : List (List Char)} (h : wordsOK ws) :
    ∀ c ∈ joinWords ws, c.toNat < 128 ∧ pyLowerChar c = c ∧ c ≠ '(' ∧ c ≠ ')' ∧ c ≠ '-' := by
  intro c hc
  rcases joinWords_chars ws c hc with ⟨w, hw, hcw⟩ | hsp
  · obtain ⟨h1, h2, h3, h4, h5, _⟩ := (h w hw).2 c hcw
    exact ⟨h1, h2, h3, h4, h5⟩
  · subst hsp
    refine ⟨by decide, by decide, by decide, by decide, by decide⟩

theorem cleanChars_joinWords_fixed {ws : List (List Char)} (h : wordsOK ws) :
    cleanChars (joinWords ws) = joinWords ws := by
  have hgood := joinWords_char_good h
  have hnws := wordsOK_no_ws h
  have h1 : (joinWords ws).map pyLowerChar = joinWords ws :=
    map_fixed _ (fun c hc => (hgood c hc).2.1)
  have h2 : pyStrip (joinWords ws) = joinWords ws :=
    pyStrip_fixed _ (joinWords_head_not_ws ws hnws) (joinWords_last_not_ws ws hnws)
  have h3 : (joinWords ws).flatMap uniChar = joinWords ws := by
    refine flatMap_fixed _ (fun c hc => ?_)
    unfold uniChar
    rw [if_pos (hgood c hc).1]
  have h4 : (joinWords ws).filter notParen = joinWords ws := by
    refine filter_fixed _ (fun c hc => ?_)
    unfold notParen
    simp [(hgood c hc).2.2.1, (hgood c hc).2.2.2.1]
  have h5 : (joinWords ws).map hyphenToSpace = joinWords ws := by
    refine map_fixed _ (fun c hc => ?_)
    unfold hyphenToSpace
    rw [if_neg (hgood c hc).2.2.2.2]
  show joinWords (pySplit (preSplit (joinWords ws))) = joinWords ws
  unfold preSplit
  rw [h1, h2, h3, h4, h5, pySplit_joinWords ws hnws]

theorem cleanChars_idem_tame (l : List Char) (hl : ∀ c ∈ l, tameChar c) :
    cleanChars (cleanChars l) = cleanChars l :=
  cleanChars_joinWords_fixed (cleanChars_words_tame l hl)

theorem cleanChars_lower_tame (l : List Char) (hl : ∀ c ∈ l, tameChar c) :
    ∀ c ∈ cleanChars l, pyLowerChar c = c :=
  fun c hc => (joinWords_char_good (cleanChars_words_tame l hl) c hc).2.1

theorem joinWords_char_ascii {ws : List (List Char)}
    (h : ∀ w ∈ ws, w ≠ [] ∧ ∀ c ∈ w,
      (c.toNat < 128 ∧ c ≠ '(' ∧ c ≠ ')' ∧ c ≠ '-') ∧ c.isWhitespace = false) :
    ∀ c ∈ joinWords ws, c.toNat < 128 ∧ c ≠ '(' ∧ c ≠ ')' ∧ c ≠ '-' := by
  intro c hc
  rcases joinWords_chars ws c hc with ⟨w, hw, hcw⟩ | hsp
  · exact ((h w hw).2 c hcw).1
  · subst hsp
    refine ⟨by decide, by decide, by decide, by decide⟩

theorem cleanChars_good_ascii (l : List Char) :
    (∀ c ∈ cleanChars l, c.toNat < 128 ∧ c ≠ '(' ∧ c ≠ ')' ∧ c ≠ '-') ∧
    noDoubleWS (cleanChars l) = true := by
  constructor
  · exact joinWords_char_ascii (cleanChars_words_ascii l)
  · refine joinWords_noDoubleWS _ ?_
    intro w hw
    exact ⟨(cleanChars_words_ascii l w hw).1,
      fun c hc => ((cleanChars_words_ascii l w hw).2 c hc).2⟩

/-- Counterexample for C1: `unidecode` transliterates `'™'` to `"(TM)"`,
and `lower()` runs before the transliteration, so `clean_name` maps the
string `"™"` to `"TM"` — a string containing uppercase — while a second
application lowercases it to `"tm"`; `clean_name` is therefore neither
all-lowercase nor idempotent on every input. -/
theorem clean_name_uppercase_counterexample :
    clean_name (.str "™") = "TM" ∧
    clean_name (.str (clean_name (.str "™"))) = "tm" ∧
    clean_name (.str (clean_name (.str "™"))) ≠ clean_name (.str "™") ∧
    'T' ∈ (clean_name (.str "™")).data ∧ pyLowerChar 'T' ≠ 'T' := by
  decide

/-- C1 (amended): every string returned by `clean_name` consists only of
ASCII characters (hence carries no diacritic) and contains no
parenthesis, no hyphen, and no run of two or more consecutive whitespace
characters; non-string input (including missing values) yields the empty
string, on which `clean_name` is idempotent.  Idempotence and
all-lowercase output hold for every string of tame characters — those
whose lowercased form transliterates to lowercase-stable text, which
covers ASCII and the accented Latin letters of the datasets — but, as
the counterexample shows, not for every input. -/
theorem clean_name_canonical_amended (x : Cell) :
    (∀ c ∈ (clean_name x).data, c.toNat < 128 ∧ c ≠ '(' ∧ c ≠ ')' ∧ c ≠ '-') ∧
    noDoubleWS (clean_name x).data = true ∧
    (x.isStr = false → clean_name x = "" ∧
      clean_name (.str (clean_name x)) = clean_name x) ∧
    (∀ s : String, x = .str s → (∀ c ∈ s.data, tameChar c) →
      clean_name (.str (clean_name x)) = clean_name x ∧
      ∀ c ∈ (clean_name x).data, pyLowerChar c = c) := by
  cases x with
  | str s =>
    refine ⟨(cleanChars_good_ascii s.data).1, (cleanChars_good_ascii s.data).2, ?_, ?_⟩
    · intro h
      simp [Cell.isStr] at h
    · intro s' hs' htame
      injection hs' with hss
      subst hss
      constructor
      · show (⟨cleanChars (cleanChars s.data)⟩ : String) = ⟨cleanChars s.data⟩
        rw [cleanChars_idem_tame s.data htame]
      · exact cleanChars_lower_tame s.data htame
  | num q => exact ⟨by simp [clean_name], rfl, fun _ => ⟨rfl, rfl⟩, fun s hs => nomatch hs⟩
  | null => exact ⟨by simp [clean_name], rfl, fun _ => ⟨rfl, rfl⟩, fun s hs => nomatch hs⟩

/-- Witness for C1 (amended) at a concrete tame accented, parenthesised,
hyphenated name. -/
theorem clean_name_canonical_amended_witness :
    clean_name (.str (clean_name (.str " Gare-du  (Nord) É "))) =
      clean_name (.str " Gare-du  (Nord) É ") ∧
    (∀ c ∈ (clean_name (.str " Gare-du  (Nord) É ")).data, pyLowerChar c = c) ∧
    noDoubleWS (clean_name (.str " Gare-du  (Nord) É ")).data = true := by
  have h := clean_name_canonical_amended (.str " Gare-du  (Nord) É ")
  have ht := h.2.2.2 " Gare-du  (Nord) É " rfl (by decide)
  exact ⟨ht.1, ht.2, h.2.1⟩

theorem filter_map_comm {α β : Type} (f : α → β) (p : β → Bool) (l : List α) :
    (l.map f).filter p = (l.filter (fun a => p (f a))).map f := by
  induction l with
  | nil => rfl
  | cons a t ih => by_cases h : p (f a) <;> simp [List.filter_cons, h, ih]

theorem load_validations_data_eq (rows : List RawValRow) :
    load_validations_data rows = (rows.filter survivesVal).map mkValidationRecord := by
  simp only [load_validations_data]
  rw [List.map_map, filter_map_comm, List.map_map]
  rfl

theorem load_gares_data_eq (f : GaresFrame) :
    load_gares_data f =
      (f.rows.filter (fun r => !r.gare.isNull)).map (fun r => finishStation (preStationOf f r)) := by
  unfold load_gares_data
  rw [filter_map_comm, List.map_map]
  rfl

theorem mem_groupSum {α κ : Type} [DecidableEq κ] (key : α → κ) (val : α → Flt)
    (l : List α) (k : κ) (s : Flt) :
    (k, s) ∈ groupSum key val l ↔
      ((∃ a ∈ l, key a = k) ∧
        s = fltSum ((l.filter (fun a => decide (key a = k))).map val)) := by
  unfold groupSum
  rw [List.mem_map]
  constructor
  · rintro ⟨k', hk', heq⟩
    injection heq with h1 h2
    subst h1
    refine ⟨?_, h2.symm⟩
    have := List.mem_dedup.mp hk'
    rw [List.mem_map] at this
    obtain ⟨a, ha, hak⟩ := this
    exact ⟨a, ha, hak⟩
  · rintro ⟨⟨a, ha, hak⟩, hs⟩
    exact ⟨k, List.mem_dedup.mpr (List.mem_map.mpr ⟨a, ha, hak⟩), by rw [hs]⟩

theorem merge_countP_val (dfv : List ValidationRecord) (dfg : List StationRecord)
    (v : ValidationRecord) :
    (merge_validations_gares dfv dfg).countP (fun j => j.val == v) =
      (dfv.countP (fun w => w == v)) * max 1 (dfg.countP (fun g => g.gare == v.gare)) := by
  induction dfv with
  | nil => simp [merge_validations_gares]
  | cons w t ih =>
    rw [show merge_validations_gares (w :: t) dfg =
      (match dfg.filter (fun g => g.gare == w.gare) with
       | [] => [{ val := w, station := none }]
       | ms => ms.map (fun g => { val := w, station := some g })) ++
        merge_validations_gares t dfg from List.flatMap_cons ..]
    rw [List.countP_append, ih, List.countP_cons]
    by_cases hw : w = v
    · subst hw
      have hfilters :
          (dfg.filter (fun g => g.gare == w.gare)).length =
            dfg.countP (fun g => g.gare == w.gare) :=
        (List.countP_eq_length_filter _ _).symm
      cases hm : dfg.filter (fun g => g.gare == w.gare) with
      | nil =>
        have hK : dfg.countP (fun g => g.gare == w.gare) = 0 := by
          rw [← hfilters, hm]
          rfl
        simp only [hK, List.countP_cons, Nat.add_mul]
        simp
        omega
      | cons m ms =>
        have hK : dfg.countP (fun g => g.gare == w.gare) = (m :: ms).length := by
          rw [← hfilters, hm]
        have hcnt : ((m :: ms).map
            (fun g => ({ val := w, station := some g } : JoinedRecord))).countP
            (fun j => j.val == w) = (m :: ms).length := by
          rw [List.countP_map]
          simp [Function.comp]
        simp only [hcnt, hK]
        have hmax : max 1 (m :: ms).length = (m :: ms).length :=
          Nat.max_eq_right (by simp [Nat.succ_le_succ])
        rw [hmax]
        simp [Nat.add_mul]
        omega
    · have hbranch : ∀ ms : List StationRecord,
          ((ms.map (fun g => ({ val := w, station := some g } : JoinedRecord))).countP
            (fun j => j.val == v)) = 0 := by
        intro ms
        rw [List.countP_map]
        simp [Function.comp, hw]
      cases hm : dfg.filter (fun g => g.gare == w.gare) with
      | nil => simp [hw]
      | cons m ms => simp [hbranch (m :: ms), hw]

theorem merge_countP_nullrow (dfv : List ValidationRecord) (dfg : List StationRecord)
    (v : ValidationRecord) (hk : dfg.countP (fun g => g.gare == v.gare) = 0) :
    (merge_validations_gares dfv dfg).countP
      (fun j => j == ({ val := v, station := none } : JoinedRecord)) =
      dfv.countP (fun w => w == v) := by
  induction dfv with
  | nil => simp [merge_validations_gares]
  | cons w t ih =>
    rw [show merge_validations_gares (w :: t) dfg =
      (match dfg.filter (fun g => g.gare == w.gare) with
       | [] => [{ val := w, station := none }]
       | ms => ms.map (fun g => { val := w, station := some g })) ++
        merge_validations_gares t dfg from List.flatMap_cons ..]
    rw [List.countP_append, ih, List.countP_cons]
    by_cases hw : w = v
    · subst hw
      have hnil : dfg.filter (fun g => g.gare == w.gare) = [] := by
        rw [List.countP_eq_length_filter] at hk
        exact List.length_eq_zero.mp hk
      rw [hnil]
      simp
      omega
    · cases hm : dfg.filter (fun g => g.gare == w.gare) with
      | nil =>
        have : (({ val := w, station := none } : JoinedRecord) ==
            ({ val := v, station := none } : JoinedRecord)) = false := by
          rw [beq_eq_false_iff_ne]
          intro hcon
          injection hcon with h1 _
          exact hw h1
        simp [this, hw]
      | cons m ms =>
        have hz : ((m :: ms).map
            (fun g => ({ val := w, station := some g } : JoinedRecord))).countP
            (fun j => j == ({ val := v, station := none } : JoinedRecord)) = 0 := by
          rw [List.countP_map]
          have : ∀ g : StationRecord,
              (({ val := w, station := some g } : JoinedRecord) ==
                ({ val := v, station := none } : JoinedRecord)) = false := by
            intro g
            rw [beq_eq_false_iff_ne]
            intro hcon
            injection hcon with _ h2
            cases h2
          simp [Function.comp, this]
        simp [hz, hw]

theorem merge_mem_match (dfv : List ValidationRecord) (dfg : List StationRecord)
    (v : ValidationRecord) (g : StationRecord) (hv : v ∈ dfv) (hg : g ∈ dfg)
    (hgare : g.gare = v.gare) :
    ({ val := v, station := some g } : JoinedRecord) ∈ merge_validations_gares dfv dfg := by
  unfold merge_validations_gares
  rw [List.mem_flatMap]
  refine ⟨v, hv, ?_⟩
  have hmemf : g ∈ dfg.filter (fun g' => g'.gare == v.gare) := by
    rw [List.mem_filter]
    exact ⟨hg, by simp [hgare]⟩
  cases hm : dfg.filter (fun g' => g'.gare == v.gare) with
  | nil => rw [hm] at hmemf; cases hmemf
  | cons m ms =>
    rw [hm] at hmemf
    exact List.mem_map.mpr ⟨g, hmemf, rfl⟩

/-- C2: `merge_validations_gares` is a left outer join on the station
key.  Counted with multiplicity, a validation record appears once per
matching station record — duplicated matches are not deduplicated — or
exactly once, with the station side null, when no station matches; every
matching station record yields its own joined row; and every validation
record appears at least once. -/
theorem merge_is_left_outer_join (dfv : List ValidationRecord)
    (dfg : List StationRecord) (v : ValidationRecord) (hv : v ∈ dfv) :
    ((merge_validations_gares dfv dfg).countP (fun j => j.val == v) =
      (dfv.countP (fun w => w == v)) * max 1 (dfg.countP (fun g => g.gare == v.gare))) ∧
    (dfg.countP (fun g => g.gare == v.gare) = 0 →
      (merge_validations_gares dfv dfg).countP
        (fun j => j == ({ val := v, station := none } : JoinedRecord)) =
        dfv.countP (fun w => w == v)) ∧
    (∀ g ∈ dfg, g.gare = v.gare →
      ({ val := v, station := some g } : JoinedRecord) ∈ merge_validations_gares dfv dfg) ∧
    1 ≤ (merge_validations_gares dfv dfg).countP (fun j => j.val == v) := by
  refine ⟨merge_countP_val dfv dfg v,
    fun hk => merge_countP_nullrow dfv dfg v hk,
    fun g hg hgare => merge_mem_match dfv dfg v g hv hg hgare, ?_⟩
  rw [merge_countP_val dfv dfg v]
  have h1 : 0 < dfv.countP (fun w => w == v) :=
    List.countP_pos_iff.mpr ⟨v, hv, by simp⟩
  have h2 : 0 < max 1 (dfg.countP (fun g => g.gare == v.gare)) :=
    Nat.lt_of_lt_of_le Nat.zero_lt_one (Nat.le_max_left 1 _)
  exact Nat.mul_pos h1 h2

/-- Witness for C2: one validation row with two matching stations (same
key, distinct coordinates) and one unmatched station yields exactly two
joined rows for that validation. -/
theorem merge_is_left_outer_join_witness :
    (merge_validations_gares [vRec "a" "semaine" ⟨1, 1⟩]
      [gRec "a" (.num ⟨1, 1⟩) (.num ⟨2, 1⟩) (.str "Métro") (.str "X"),
       gRec "a" (.num ⟨3, 1⟩) (.num ⟨4, 1⟩) (.str "RER") (.str "Y"),
       gRec "b" .null .null .null .null]).countP
      (fun j => j.val == vRec "a" "semaine" ⟨1, 1⟩) = 2 := by
  have h := merge_is_left_outer_join [vRec "a" "semaine" ⟨1, 1⟩]
    [gRec "a" (.num ⟨1, 1⟩) (.num ⟨2, 1⟩) (.str "Métro") (.str "X"),
     gRec "a" (.num ⟨3, 1⟩) (.num ⟨4, 1⟩) (.str "RER") (.str "Y"),
     gRec "b" .null .null .null .null] (vRec "a" "semaine" ⟨1, 1⟩)
    (List.mem_cons_self _ _)
  rw [h.1]
  decide

theorem infer_mode_eq_first (tm tr tt ttr tv : Cell) :
    infer_mode tm tr tt ttr tv =
      ((([("Métro", tm), ("RER", tr), ("Train", tt), ("Tram", ttr), ("VAL", tv)].find?
        (fun p => cellEqOne p.2)).map Prod.fst).getD "Autre") := by
  unfold infer_mode
  by_cases h1 : cellEqOne tm <;> by_cases h2 : cellEqOne tr <;>
    by_cases h3 : cellEqOne tt <;> by_cases h4 : cellEqOne ttr <;>
    by_cases h5 : cellEqOne tv <;>
    simp [List.find?, h1, h2, h3, h4, h5]

/-- C3: when the stations frame has no explicit mode column, the mode of
every loaded record is the first mode of the fixed priority order
Métro > RER > Train > Tram > VAL whose (effective) indicator equals 1,
and `"Autre"` when all five are false; a missing indicator column behaves
as the constant 0 — in particular, with all five columns missing every
resolved mode is `"Autre"` — rather than causing a failure. -/
theorem mode_inference_priority (f : GaresFrame) (hnm : f.hasMode = false) :
    ((load_gares_data f).map (fun rec => rec.mode) =
      (f.rows.filter (fun r => !r.gare.isNull)).map (fun r => Cell.str (specModeOf f r))) ∧
    (∀ tm tr tt ttr tv : Cell, infer_mode tm tr tt ttr tv =
      ((([("Métro", tm), ("RER", tr), ("Train", tt), ("Tram", ttr), ("VAL", tv)].find?
        (fun p => cellEqOne p.2)).map Prod.fst).getD "Autre")) ∧
    (f.hasTermetro = false → f.hasTerrer = false → f.hasTertrain = false →
      f.hasTertram = false → f.hasTerval = false →
      ∀ r : RawGareRow, specModeOf f r = "Autre") := by
  refine ⟨?_, infer_mode_eq_first, ?_⟩
  · rw [load_gares_data_eq, List.map_map]
    refine List.map_congr_left ?_
    intro r hr
    show (finishStation (preStationOf f r)).mode = Cell.str (specModeOf f r)
    show (preStationOf f r).mode = Cell.str (specModeOf f r)
    unfold preStationOf
    rw [if_neg (by simp [hnm])]
    simp only [infer_mode_eq_first]
    rfl
  · intro h1 h2 h3 h4 h5 r
    unfold specModeOf specModePriority
    rw [h1, h2, h3, h4, h5]
    rfl

/-- Witness for C3: a frame without a mode column whose single row has
`termetro = 1` resolves to `"Métro"`; the same row with all indicator
columns missing resolves to `"Autre"`. -/
theorem mode_inference_priority_witness :
    ((load_gares_data (frameOf true [rawRow (.str "a") .null ⟨1, 1⟩])).map
      (fun rec => rec.mode) = [Cell.str "Métro"]) ∧
    ((load_gares_data (frameOf false [rawRow (.str "a") .null ⟨1, 1⟩])).map
      (fun rec => rec.mode) = [Cell.str "Autre"]) := by
  constructor
  · rw [(mode_inference_priority _ rfl).1]
    decide
  · rw [(mode_inference_priority _ rfl).1]
    decide

theorem cell_not_isNull_iff (c : Cell) : (!c.isNull) = true ↔ c ≠ Cell.null := by
  cases c <;> simp [Cell.isNull]

/-- Counterexample for C4: in the label `"H6-7H"` the unit letter appears
as a prefix, not a suffix; the claim's algorithm (strip the unit suffix
from the text before the separator) cannot parse `"H6"` and would drop
the row, but the code removes every `H` and keeps the row with hour 6. -/
theorem hour_suffix_counterexample :
    parse_heure (.str "H6-7H") = some 6 ∧
    specDerivedHour (.str "H6-7H") = none ∧
    load_validations_data [rawVal (.str "a") (.str "semaine") (.str "H6-7H") (.num ⟨1, 1⟩)] =
      [mkValidationRecord (rawVal (.str "a") (.str "semaine") (.str "H6-7H") (.num ⟨1, 1⟩))] ∧
    (mkValidationRecord (rawVal (.str "a") (.str "semaine") (.str "H6-7H") (.num ⟨1, 1⟩))).heure = 6 := by
  refine ⟨by decide, by decide, ?_, by decide⟩
  rw [load_validations_data_eq]
  decide

/-- C4 (amended): the derived hour is the integer parse of the text
before the first separator with every occurrence of the unit letter `H`
removed (not only a trailing suffix); `"6H-7H"` yields 6, `"abc"` fails;
a row is dropped exactly when one of station label, day type, hour-bucket
label, coerced percentage or parsed hour is missing, and every surviving
record's hour is the parsed hour of its label. -/
theorem hour_parsing_amended (rows : List RawValRow) :
    (load_validations_data rows = (rows.filter survivesVal).map mkValidationRecord) ∧
    (∀ r ∈ rows, survivesVal r = true ↔
      (r.gare ≠ Cell.null ∧ r.type_jour ≠ Cell.null ∧ r.tranche_horaire ≠ Cell.null ∧
        pyToNumeric r.pct_validations ≠ Cell.null ∧ parse_heure r.tranche_horaire ≠ none)) ∧
    (∀ v ∈ load_validations_data rows, parse_heure v.tranche_horaire = some v.heure) ∧
    parse_heure (.str "6H-7H") = some 6 ∧
    parse_heure (.str "abc") = none := by
  refine ⟨load_validations_data_eq rows, ?_, ?_, by decide, by decide⟩
  · intro r _
    unfold survivesVal
    simp only [Bool.and_eq_true, cell_not_isNull_iff, Option.isSome_iff_ne_none]
    constructor
    · rintro ⟨⟨⟨⟨h1, h2⟩, h3⟩, h4⟩, h5⟩
      exact ⟨h1, h2, h3, h4, h5⟩
    · rintro ⟨h1, h2, h3, h4, h5⟩
      exact ⟨⟨⟨⟨h1, h2⟩, h3⟩, h4⟩, h5⟩
  · intro v hv
    rw [load_validations_data_eq] at hv
    rw [List.mem_map] at hv
    obtain ⟨r, hr, rfl⟩ := hv
    rw [List.mem_filter] at hr
    have hs : (parse_heure r.tranche_horaire).isSome = true := by
      have := hr.2
      unfold survivesVal at this
      simp only [Bool.and_eq_true] at this
      exact this.2
    obtain ⟨h, hh⟩ := Option.isSome_iff_exists.mp hs
    show parse_heure r.tranche_horaire = some ((parse_heure r.tranche_horaire).getD 0)
    rw [hh]
    rfl

/-- Witness for C4 (amended) at a concrete well-formed row. -/
theorem hour_parsing_amended_witness :
    load_validations_data [rawVal (.str "a") (.str "semaine") (.str "6H-7H") (.num ⟨1, 1⟩)] =
      [mkValidationRecord (rawVal (.str "a") (.str "semaine") (.str "6H-7H") (.num ⟨1, 1⟩))] ∧
    parse_heure (mkValidationRecord (rawVal (.str "a") (.str "semaine") (.str "6H-7H")
      (.num ⟨1, 1⟩))).tranche_horaire =
      some (mkValidationRecord (rawVal (.str "a") (.str "semaine") (.str "6H-7H")
        (.num ⟨1, 1⟩))).heure := by
  have h := hour_parsing_amended
    [rawVal (.str "a") (.str "semaine") (.str "6H-7H") (.num ⟨1, 1⟩)]
  constructor
  · rw [h.1]
    decide
  · refine h.2.2.1 _ ?_
    rw [h.1]
    decide

/-- Counterexample for C5: the geo-point text `"1, x"` splits into exactly
two parts, the first coerces to 1 and the second fails coercion, so the
loaded record has a non-null `lat` together with a null `lon` — the
partial result the claim rules out. -/
theorem latlon_partial_counterexample :
    (load_gares_data (frameOf true [rawRow (.str "a") (.str "1, x") ⟨1, 1⟩])).map
      (fun rec => (rec.lat, rec.lon)) = [(Cell.num ⟨1, 1⟩, Cell.null)] := by
  rw [load_gares_data_eq]
  decide

/-- C5 (amended): `lat`/`lon` come from splitting the geo-point text on a
comma; a missing or non-string text, or a split into any number of parts
other than two, yields null for both coordinates; a split into exactly
two parts coerces each trimmed part independently, with a coercion
failure yielding null for that coordinate only (so one-sided nulls can
occur); every loaded record carries exactly the pair computed from its
row's geo-point text. -/
theorem latlon_amended (c : Cell) :
    (c.isStr = false → latlonOf c = (Cell.null, Cell.null)) ∧
    (∀ s : String, c = .str s → (s.data.splitOn ',').length ≠ 2 →
      latlonOf c = (Cell.null, Cell.null)) ∧
    (∀ s : String, c = .str s → ∀ a b : List Char, s.data.splitOn ',' = [a, b] →
      latlonOf c = (pyToNumeric (.str ⟨pyStrip a⟩), pyToNumeric (.str ⟨pyStrip b⟩))) ∧
    latlonOf (.str "48.85, 2.35") = (Cell.num ⟨977, 20⟩, Cell.num ⟨47, 20⟩) ∧
    latlonOf (.str "48.85") = (Cell.null, Cell.null) ∧
    (∀ f : GaresFrame, ∀ rec ∈ load_gares_data f, ∃ r ∈ f.rows,
      rec.lat = (latlonOf r.geo_point_2d).1 ∧ rec.lon = (latlonOf r.geo_point_2d).2) := by
  refine ⟨?_, ?_, ?_, by decide, by decide, ?_⟩
  · intro hc
    cases c with
    | str s => simp [Cell.isStr] at hc
    | num q => rfl
    | null => rfl
  · intro s hs hlen
    subst hs
    simp only [latlonOf, split_geo]
    cases hsp : s.data.splitOn ',' with
    | nil => rfl
    | cons a t =>
      cases t with
      | nil => rfl
      | cons b t' =>
        cases t' with
        | nil => rw [hsp] at hlen; simp at hlen
        | cons d t'' => rfl
  · intro s hs a b hab
    subst hs
    simp only [latlonOf, split_geo]
    rw [hab]
  · intro f rec hrec
    rw [load_gares_data_eq, List.mem_map] at hrec
    obtain ⟨r, hr, rfl⟩ := hrec
    rw [List.mem_filter] at hr
    exact ⟨r, hr.1, rfl, rfl⟩

/-- Witness for C5 (amended) at the spec's two example texts. -/
theorem latlon_amended_witness :
    latlonOf (.str "48.85") = (Cell.null, Cell.null) ∧
    latlonOf (.str "48.85, 2.35") = (Cell.num ⟨977, 20⟩, Cell.num ⟨47, 20⟩) := by
  refine ⟨(latlon_amended (.str "48.85")).2.1 "48.85" rfl (by decide), ?_⟩
  exact (latlon_amended (.str "48.85, 2.35")).2.2.2.1

/-- Counterexample for C6: a row whose raw name `"()"` is non-null but
normalizes to the empty string is kept by the loader, so the output
contains a record whose station name is empty. -/
theorem station_empty_name_counterexample :
    (load_gares_data (frameOf true [rawRow (.str "()") .null ⟨1, 1⟩])).map
      (fun rec => rec.gare) = [""] := by
  rw [load_gares_data_eq]
  decide

/-- C6 (amended): the StationsLoader drops exactly the rows whose raw
station name is null; a row whose non-null name is empty or normalizes to
the empty string survives, with the empty string as its station name. -/
theorem station_name_filter_amended (f : GaresFrame) :
    ((load_gares_data f).length = (f.rows.filter (fun r => !r.gare.isNull)).length) ∧
    ((load_gares_data f).map (fun rec => rec.gare) =
      (f.rows.filter (fun r => !r.gare.isNull)).map (fun r => clean_name r.gare)) ∧
    (∀ rec ∈ load_gares_data f, ∃ r ∈ f.rows, r.gare.isNull = false ∧
      rec.gare = clean_name r.gare) := by
  refine ⟨?_, ?_, ?_⟩
  · rw [load_gares_data_eq, List.length_map]
  · rw [load_gares_data_eq, List.map_map]
    rfl
  · intro rec hrec
    rw [load_gares_data_eq, List.mem_map] at hrec
    obtain ⟨r, hr, rfl⟩ := hrec
    rw [List.mem_filter] at hr
    refine ⟨r, hr.1, ?_, rfl⟩
    have := hr.2
    simp only [Bool.not_eq_true'] at this
    exact this

/-- Witness for C6 (amended): on a frame with one null-named row and one
`"()"`-named row, exactly the null-named row is dropped and the survivor
carries the empty name. -/
theorem station_name_filter_amended_witness :
    (load_gares_data (frameOf true [rawRow Cell.null .null ⟨1, 1⟩,
      rawRow (.str "()") .null ⟨1, 1⟩])).length = 1 ∧
    (load_gares_data (frameOf true [rawRow Cell.null .null ⟨1, 1⟩,
      rawRow (.str "()") .null ⟨1, 1⟩])).map (fun rec => rec.gare) = [""] := by
  constructor
  · rw [(station_name_filter_amended _).1]
    decide
  · rw [(station_name_filter_amended _).2.1]
    decide

/-- Counterexample for C7: a joined row with non-null coordinates but a
null mode is silently excluded by the code's grouping, so the summary is
empty, while the computation the claim describes (exclude only null
lat/lon, then group and sum) still produces the row's group. -/
theorem map_summary_counterexample :
    show_map_data [jRow (vRec "a" "semaine" ⟨1, 1⟩)
      (some (gRec "a" (.num ⟨1, 1⟩) (.num ⟨2, 1⟩) .null (.str "X")))] = [] ∧
    specMapSummary [jRow (vRec "a" "semaine" ⟨1, 1⟩)
      (some (gRec "a" (.num ⟨1, 1⟩) (.num ⟨2, 1⟩) .null (.str "X")))] =
      [(("a", .num ⟨1, 1⟩, .num ⟨2, 1⟩, .null, .str "X"), ⟨1, 1⟩)] := by
  constructor <;> decide

/-- C7 (amended): the geospatial summary groups by (station key, lat,
lon, mode, operator) and reduces each group with the sum (not the mean)
of `pct_validations` across all day types and hours, after excluding
every row whose lat or lon is null and also — through the grouping's
handling of missing keys — every row whose mode or operator is null; a
station with 2.0 under "semaine" and 3.0 under "samedi" totals 5.0. -/
theorem map_summary_amended :
    (∀ (rows : List JoinedRecord) (k : String × Cell × Cell × Cell × Cell) (s : Flt),
      (k, s) ∈ show_map_data rows ↔
        ((∃ j ∈ mapRowsKept rows, mapKeyOf j = k) ∧
          s = fltSum (((mapRowsKept rows).filter (fun j => decide (mapKeyOf j = k))).map
            (fun j => j.val.pct_validations)))) ∧
    show_map_data
      [jRow (vRec "a" "semaine" ⟨2, 1⟩)
        (some (gRec "a" (.num ⟨1, 1⟩) (.num ⟨2, 1⟩) (.str "Métro") (.str "X"))),
       jRow (vRec "a" "samedi" ⟨3, 1⟩)
        (some (gRec "a" (.num ⟨1, 1⟩) (.num ⟨2, 1⟩) (.str "Métro") (.str "X")))] =
      [(("a", .num ⟨1, 1⟩, .num ⟨2, 1⟩, .str "Métro", .str "X"), ⟨5, 1⟩)] := by
  constructor
  · intro rows k s
    exact mem_groupSum mapKeyOf (fun j => j.val.pct_validations) (mapRowsKept rows) k s
  · decide

/-- Witness for C7 (amended): the single group of the two-row example is
reached through the characterization, with its summed value 5. -/
theorem map_summary_amended_witness :
    ((("a", Cell.num ⟨1, 1⟩, Cell.num ⟨2, 1⟩, Cell.str "Métro", Cell.str "X"), (⟨5, 1⟩ : Flt)) ∈
      show_map_data
        [jRow (vRec "a" "semaine" ⟨2, 1⟩)
          (some (gRec "a" (.num ⟨1, 1⟩) (.num ⟨2, 1⟩) (.str "Métro") (.str "X"))),
         jRow (vRec "a" "samedi" ⟨3, 1⟩)
          (some (gRec "a" (.num ⟨1, 1⟩) (.num ⟨2, 1⟩) (.str "Métro") (.str "X")))]) :=
  (map_summary_amended.1 _ _ _).mpr ⟨by decide, by decide⟩

/-- Counterexample for C8: the join of a non-empty validations collection
with an empty stations collection is not empty — it keeps every
validation row with null station fields. -/
theorem empty_stations_join_counterexample :
    merge_validations_gares [vRec "a" "semaine" ⟨1, 1⟩] [] =
      [jRow (vRec "a" "semaine" ⟨1, 1⟩) none] ∧
    merge_validations_gares [vRec "a" "semaine" ⟨1, 1⟩] [] ≠ [] := by
  constructor <;> decide

/-- C8 (amended): an empty source to either loader, an empty validations
collection given to the join, and an empty record collection given to any
of the four aggregations all yield an empty output; an empty stations
collection with non-empty validations instead yields one all-null-station
joined row per validation row. -/
theorem empty_inputs_amended :
    load_validations_data [] = [] ∧
    (∀ f : GaresFrame, f.rows = [] → load_gares_data f = []) ∧
    (∀ dfg : List StationRecord, merge_validations_gares [] dfg = []) ∧
    profil_horaire_data [] = [] ∧
    boxplot_data [] = [] ∧
    heatmap_data [] = [] ∧
    show_map_data [] = [] ∧
    (∀ dfv : List ValidationRecord, merge_validations_gares dfv [] =
      dfv.map (fun v => jRow v none)) := by
  refine ⟨rfl, ?_, fun dfg => rfl, rfl, rfl, rfl, rfl, ?_⟩
  · intro f hf
    rw [load_gares_data_eq, hf]
    rfl
  · intro dfv
    induction dfv with
    | nil => rfl
    | cons v t ih =>
      rw [show merge_validations_gares (v :: t) [] =
        (match ([] : List StationRecord).filter (fun g => g.gare == v.gare) with
         | [] => [{ val := v, station := none }]
         | ms => ms.map (fun g => { val := v, station := some g })) ++
          merge_validations_gares t [] from List.flatMap_cons ..]
      rw [ih]
      rfl

/-- Witness for C8 (amended) at a concrete empty stations frame. -/
theorem empty_inputs_amended_witness :
    load_gares_data (frameOf true []) = [] :=
  empty_inputs_amended.2.1 (frameOf true []) rfl

theorem cell_isNull_false_iff (c : Cell) : c.isNull = false ↔ c ≠ Cell.null := by
  cases c <;> simp [Cell.isNull]

/-- C9: the geospatial summary silently excludes every joined row whose
mode or operator is null, even when its lat and lon are present:
appending such a row leaves the summary unchanged, and no summary entry
carries a null mode or operator in its key. -/
theorem map_summary_null_key_exclusion (rows : List JoinedRecord)
    (j : JoinedRecord) (hj : j.mode = Cell.null ∨ j.exploitant = Cell.null) :
    show_map_data (rows ++ [j]) = show_map_data rows ∧
    (∀ e ∈ show_map_data rows, e.1.2.2.2.1 ≠ Cell.null ∧ e.1.2.2.2.2 ≠ Cell.null) := by
  have hp2 : (!j.mode.isNull && !j.exploitant.isNull) = false := by
    rcases hj with h | h <;> simp [h, Cell.isNull]
  constructor
  · show groupSum mapKeyOf (fun j => j.val.pct_validations) (mapRowsKept (rows ++ [j])) =
      groupSum mapKeyOf (fun j => j.val.pct_validations) (mapRowsKept rows)
    have hkept : mapRowsKept (rows ++ [j]) = mapRowsKept rows := by
      unfold mapRowsKept
      rw [List.filter_append, List.filter_append]
      have hnil : (([j].filter (fun j => !j.lat.isNull && !j.lon.isNull)).filter
          (fun j => !j.mode.isNull && !j.exploitant.isNull)) = [] := by
        by_cases hp1 : (!j.lat.isNull && !j.lon.isNull) = true <;>
          simp [List.filter_singleton, hp1, hp2]
      rw [hnil, List.append_nil]
    rw [hkept]
  · rintro ⟨k, s⟩ he
    obtain ⟨⟨a, ha, hak⟩, _⟩ :=
      (mem_groupSum mapKeyOf (fun j => j.val.pct_validations) (mapRowsKept rows) k s).mp he
    unfold mapRowsKept at ha
    rw [List.mem_filter] at ha
    have hpa := ha.2
    simp only [Bool.and_eq_true, Bool.not_eq_true'] at hpa
    rw [← hak]
    exact ⟨(cell_isNull_false_iff a.mode).mp hpa.1,
      (cell_isNull_false_iff a.exploitant).mp hpa.2⟩

/-- Witness for C9: appending a row with coordinates but a null mode to a
one-row collection leaves the geospatial summary unchanged. -/
theorem map_summary_null_key_exclusion_witness :
    show_map_data
      ([jRow (vRec "a" "semaine" ⟨2, 1⟩)
        (some (gRec "a" (.num ⟨1, 1⟩) (.num ⟨2, 1⟩) (.str "Métro") (.str "X")))] ++
       [jRow (vRec "b" "semaine" ⟨3, 1⟩)
        (some (gRec "b" (.num ⟨5, 1⟩) (.num ⟨6, 1⟩) .null (.str "Y")))]) =
      show_map_data
        [jRow (vRec "a" "semaine" ⟨2, 1⟩)
          (some (gRec "a" (.num ⟨1, 1⟩) (.num ⟨2, 1⟩) (.str "Métro") (.str "X")))] :=
  (map_summary_null_key_exclusion _ _ (Or.inl (by decide))).1

/-- C10: the ValidationsLoader never filters on the normalized key — the
count of output records with an empty station key equals the count of
surviving input rows whose label normalizes to the empty string, and a
concrete non-null label `"()"` survives into the output with station key
`""`. -/
theorem validations_key_not_refiltered (rows : List RawValRow) :
    ((load_validations_data rows).countP (fun v => v.gare == "") =
      rows.countP (fun r => survivesVal r && (clean_name r.gare == ""))) ∧
    survivesVal (rawVal (.str "()") (.str "semaine") (.str "6H-7H") (.num ⟨1, 1⟩)) = true ∧
    (rawVal (.str "()") (.str "semaine") (.str "6H-7H") (.num ⟨1, 1⟩)).gare ≠ Cell.null ∧
    clean_name (.str "()") = "" ∧
    load_validations_data [rawVal (.str "()") (.str "semaine") (.str "6H-7H") (.num ⟨1, 1⟩)] =
      [mkValidationRecord (rawVal (.str "()") (.str "semaine") (.str "6H-7H") (.num ⟨1, 1⟩))] ∧
    (mkValidationRecord (rawVal (.str "()") (.str "semaine") (.str "6H-7H") (.num ⟨1, 1⟩))).gare = "" := by
  refine ⟨?_, by decide, by decide, by decide, by decide, by decide⟩
  rw [load_validations_data_eq, List.countP_map]
  induction rows with
  | nil => rfl
  | cons r t ih =>
    rw [List.filter_cons, List.countP_cons]
    by_cases hs : survivesVal r
    · rw [if_pos hs, List.countP_cons]
      rw [ih]
      have : ((clean_name (rawVal r.gare r.type_jour r.tranche_horaire r.pct_validations).gare == "") : Bool) =
          ((mkValidationRecord r).gare == "") := rfl
      simp [hs, mkValidationRecord, Function.comp]
    · rw [if_neg hs, ih]
      simp [hs]
